import Mathlib

/-!
Shallow embedding of the chaet_backend chat server (Django/Channels) and
verification of its specification claims.

Users are identified by their numeric primary key; usernames are identified
with that key (the source compares users both by object identity and by
username, and both comparisons agree on distinct users).  Database tables are
embedded as lists kept in insertion order; `Message.objects.create` assigns
timestamps from a monotone clock, so list order of `DB.messages` coincides
with chronological order, and the query `order_by(-timestamp)` is embedded as
list reversal.  Wall-clock timestamp strings carried inside broadcast payloads
are irrelevant to every claim and are omitted from event payloads.
-/

namespace Chaet

/-- Message delivery status.  The model field declares choices
(sending, delivered, seen) but the consumer also writes the value "sent";
Django does not validate choices on save, so all four occur at runtime. -/
inductive MsgStatus where
  | sending
  | sent
  | delivered
  | seen
  deriving DecidableEq, Repr

/-- Position of a status in the lattice sending < sent < delivered < seen. -/
def statusRank : MsgStatus → Nat
  | .sending => 0
  | .sent => 1
  | .delivered => 2
  | .seen => 3

/-- ChatRoom.type choices. -/
inductive RoomType where
  | direct
  | group
  deriving DecidableEq, Repr

/-- Membership.role choices. -/
inductive Role where
  | admin
  | member
  deriving DecidableEq, Repr

/-- chat.models.ChatRoom (id, type, name). -/
structure ChatRoom where
  id : Nat
  type : RoomType
  name : Option String
  deriving DecidableEq, Repr

/-- chat.models.Membership (user, room, role); unique_together (user, room). -/
structure Membership where
  user : Nat
  room : Nat
  role : Role
  deriving DecidableEq, Repr

/-- chat.models.Message.  `deleted` embeds `deleted_at is not null` (the
tombstone); `readBy` embeds the read_by many-to-many set; `attachment` is the
stored file reference. -/
structure Message where
  id : Nat
  content : String
  sender : Nat
  room : Nat
  timestamp : Nat
  status : MsgStatus
  deleted : Bool
  readBy : List Nat
  attachment : Option String
  deriving DecidableEq, Repr

/-- The relational state: user table, room table, membership table, message
table (in insertion = chronological order), plus primary-key counters and the
clock used for message timestamps. -/
structure DB where
  users : List Nat
  rooms : List ChatRoom
  memberships : List Membership
  messages : List Message
  nextRoomId : Nat
  nextMessageId : Nat
  clock : Nat
  deriving DecidableEq, Repr

/-- Kinds of chat_message broadcast payloads (message_type field). -/
inductive MessageKind where
  | message
  | join
  | leave
  deriving DecidableEq, Repr

/-- Events published to the room group through the channel layer
(group_send payloads, discriminated by their handler type). -/
inductive GroupEvent where
  | chatMessage (messageId : Option Nat) (content : String) (user : Nat)
      (kind : MessageKind) (status : Option MsgStatus)
  | userStatus (user : Nat) (status : String)
  | typingStatus (user : Nat) (isTyping : Bool)
  | messageStatus (messageId : Nat) (status : MsgStatus) (user : Nat)
  deriving DecidableEq, Repr

/-- Events sent directly to this connection (self.send payloads). -/
inductive OutEvent where
  | chatMessage (messageId : Option Nat) (content : String) (user : Nat)
      (kind : MessageKind) (status : Option MsgStatus)
  | userStatus (user : Nat) (status : String)
  | typingStatus (user : Nat) (isTyping : Bool)
  | messageStatus (messageId : Nat) (status : MsgStatus) (user : Nat)
  | error (text : String)
  deriving DecidableEq, Repr

/-- Observable actions of a consumer: closing, accepting, joining or leaving
the room group, sending to the client, broadcasting to the group. -/
inductive Action where
  | close (code : Nat)
  | accept
  | groupAdd
  | groupDiscard
  | send (e : OutEvent)
  | groupSend (e : GroupEvent)
  deriving DecidableEq, Repr

/-- ChatConsumer.update_message_status: fetch the message by id, overwrite its
status field unconditionally, save, and broadcast a message_status event.  A
missing message is logged and nothing is broadcast (no exception escapes). -/
def update_message_status (db : DB) (selfUser : Nat) (messageId : Nat)
    (status : MsgStatus) : DB × List Action :=
  match db.messages.find? (fun m => m.id == messageId) with
  | none => (db, [])
  | some _ =>
      ({ db with
          messages := db.messages.map
            (fun m => if m.id == messageId then { m with status := status } else m) },
       [Action.groupSend (GroupEvent.messageStatus messageId status selfUser)])

/-- Status of the message row with the given id, if present. -/
def statusOf (db : DB) (messageId : Nat) : Option MsgStatus :=
  (db.messages.find? (fun m => m.id == messageId)).map Message.status

/-- find? by id commutes with a map that preserves ids. -/
theorem find?_map_of_id_preserving (l : List Message) (f : Message → Message)
    (hf : ∀ m, (f m).id = m.id) (k : Nat) :
    (l.map f).find? (fun m => m.id == k) = (l.find? (fun m => m.id == k)).map f := by
  induction l with
  | nil => rfl
  | cons a t ih =>
      by_cases h : a.id = k
      · simp [List.find?, hf, h]
      · have hb : (a.id == k) = false := by
          simpa using h
        have hfb : ((f a).id == k) = false := by
          rw [hf]; exact hb
        simp [List.find?, hb, hfb, ih]

/-- Updating one message keeps the id column unchanged. -/
theorem update_message_status_ids (db : DB) (u mid : Nat) (st : MsgStatus) :
    (update_message_status db u mid st).1.messages.map Message.id
      = db.messages.map Message.id := by
  unfold update_message_status
  cases hfind : db.messages.find? (fun m => m.id == mid) with
  | none => rfl
  | some m =>
      simp only [List.map_map]
      apply List.map_congr_left
      intro a _
      by_cases h : a.id = mid
      · simp [h]
      · simp [h]

/-- After update_message_status on an existing id, that id reads back the
written status. -/
theorem statusOf_update_self (db : DB) (u mid : Nat) (st : MsgStatus)
    (h : (db.messages.find? (fun m => m.id == mid)).isSome) :
    statusOf (update_message_status db u mid st).1 mid = some st := by
  unfold update_message_status statusOf
  cases hfind : db.messages.find? (fun m => m.id == mid) with
  | none => rw [hfind] at h; simp at h
  | some m =>
      simp only
      rw [find?_map_of_id_preserving _ _ (fun m => by by_cases hm : m.id = mid <;> simp [hm]) mid]
      rw [hfind]
      have hm := List.find?_some hfind
      simp only at hm
      have hid : m.id = mid := by simpa using hm
      simp [hm, hid]

/-- update_message_status leaves the status of every other id unchanged. -/
theorem statusOf_update_other (db : DB) (u mid : Nat) (st : MsgStatus) (k : Nat)
    (hk : k ≠ mid) :
    statusOf (update_message_status db u mid st).1 k = statusOf db k := by
  unfold update_message_status statusOf
  cases hfind : db.messages.find? (fun m => m.id == mid) with
  | none => rfl
  | some m =>
      simp only
      rw [find?_map_of_id_preserving _ _ (fun m => by by_cases hm : m.id = mid <;> simp [hm]) k]
      cases hfind2 : db.messages.find? (fun m => m.id == k) with
      | none => rfl
      | some m2 =>
          have hm2 := List.find?_some hfind2
          have : m2.id = k := by simpa using hm2
          simp [Option.map_some, this, hk]

/-- Example room used by concrete evaluations: direct room 1 with members 1, 2. -/
def exMsgC1 : Message :=
  { id := 1, content := "hi", sender := 1, room := 1, timestamp := 0,
    status := MsgStatus.sent, deleted := false, readBy := [], attachment := none }

/-- Example database holding one direct room and one message at status sent. -/
def exDbC1 : DB :=
  { users := [1, 2],
    rooms := [{ id := 1, type := RoomType.direct, name := none }],
    memberships := [{ user := 1, room := 1, role := Role.admin },
                    { user := 2, room := 1, role := Role.admin }],
    messages := [exMsgC1],
    nextRoomId := 2, nextMessageId := 2, clock := 1 }

/-- C1 counterexample: markStatus is not monotone.  On a message whose current
status is seen, a request for the strictly earlier status delivered does not
leave the status unchanged: applying seen and then delivered leaves the
message at delivered, not seen. -/
theorem markStatus_seen_then_delivered_regresses :
    statusOf (update_message_status exDbC1 2 1 MsgStatus.seen).1 1 = some MsgStatus.seen ∧
    statusRank MsgStatus.delivered < statusRank MsgStatus.seen ∧
    statusOf (update_message_status (update_message_status exDbC1 2 1 MsgStatus.seen).1
        2 1 MsgStatus.delivered).1 1 = some MsgStatus.delivered ∧
    statusOf (update_message_status (update_message_status exDbC1 2 1 MsgStatus.seen).1
        2 1 MsgStatus.delivered).1 1 ≠ some MsgStatus.seen := by
  decide

/-- C1 (amended): update_message_status performs no monotonicity check at all.
For every existing message it overwrites the stored status with the requested
status unconditionally, forward or backward in the lattice, and leaves every
other message unchanged; in particular applying seen and then delivered leaves
the message at delivered. -/
theorem markStatus_overwrites_unconditionally (db : DB) (u mid : Nat) (st : MsgStatus)
    (h : (db.messages.find? (fun m => m.id == mid)).isSome) :
    statusOf (update_message_status db u mid st).1 mid = some st ∧
    ∀ k, k ≠ mid → statusOf (update_message_status db u mid st).1 k = statusOf db k :=
  ⟨statusOf_update_self db u mid st h,
   fun k hk => statusOf_update_other db u mid st k hk⟩

/-- Witness for C1 amended theorem at a concrete database. -/
theorem markStatus_overwrites_unconditionally_witness :
    statusOf (update_message_status exDbC1 2 1 MsgStatus.delivered).1 1
        = some MsgStatus.delivered ∧
    ∀ k, k ≠ 1 → statusOf (update_message_status exDbC1 2 1 MsgStatus.delivered).1 k
        = statusOf exDbC1 k :=
  markStatus_overwrites_unconditionally exDbC1 2 1 MsgStatus.delivered (by decide)

/-- Membership test `room.members.filter(id=user.id).exists()`, through the
Membership join table. -/
def memberOf (db : DB) (uid rid : Nat) : Bool :=
  db.memberships.any (fun m => m.room == rid && m.user == uid)

/-- Outcome of DirectChatView.post: 404 user lookup failure, 400 self chat,
200/201 with a room (created tells which), or an IntegrityError raised inside
the creation transaction (the transaction rolls back). -/
inductive DirectChatResult where
  | userNotFound
  | selfChat
  | ok (db : DB) (roomId : Nat) (created : Bool)
  | integrityError
  deriving DecidableEq, Repr

/-- Existing direct chat lookup in DirectChatView.post:
`ChatRoom.objects.filter(type=direct, members=requester).filter(members=target).first()`. -/
def existingDirectChat (db : DB) (a b : Nat) : Option ChatRoom :=
  (db.rooms.filter
    (fun r => r.type == RoomType.direct && memberOf db a r.id && memberOf db b r.id)).head?

/-- DirectChatView.post after identifier resolution: looks the target user up,
rejects self chat, returns an existing direct room unchanged, and otherwise
creates a direct room with two admin memberships inside transaction.atomic.
The ChatRoom.Meta constraint unique_direct_chat_per_user_pair is a partial
unique index on the single column `type` restricted to rows with type direct,
so the insert of a direct room fails with IntegrityError whenever any direct
room row already exists, and the transaction rolls back. -/
def directChatPost (db : DB) (requester target : Nat) : DirectChatResult :=
  if ¬ db.users.contains target then DirectChatResult.userNotFound
  else if target = requester then DirectChatResult.selfChat
  else
    match existingDirectChat db requester target with
    | some r => DirectChatResult.ok db r.id false
    | none =>
        if db.rooms.any (fun r => r.type == RoomType.direct) then
          DirectChatResult.integrityError
        else
          let rid := db.nextRoomId
          DirectChatResult.ok
            { db with
                rooms := db.rooms ++ [{ id := rid, type := RoomType.direct, name := none }],
                memberships := db.memberships ++
                  [{ user := requester, room := rid, role := Role.admin },
                   { user := target, room := rid, role := Role.admin }],
                nextRoomId := rid + 1 }
            rid true

/-- Tests whether a DirectChatResult is a fresh creation. -/
def DirectChatResult.isCreated : DirectChatResult → Bool
  | DirectChatResult.ok _ _ true => true
  | _ => false

/-- Database carried by a successful DirectChatResult. -/
def DirectChatResult.resultDb : DirectChatResult → Option DB
  | DirectChatResult.ok db _ _ => some db
  | _ => none

/-- Fresh database with four users and no rooms. -/
def exDbC2 : DB :=
  { users := [1, 2, 3, 4], rooms := [], memberships := [], messages := [],
    nextRoomId := 1, nextMessageId := 1, clock := 0 }

/-- C2: evaluation of the code at the failing input.  Creating a direct room
for the pair 1, 2 succeeds, but creating a direct room for the disjoint
pair 3, 4 afterwards hits the unique_direct_chat_per_user_pair constraint
(which really allows at most one direct room in the whole table) and fails
with IntegrityError, while the claim requires both pairs to succeed. -/
theorem directChat_second_pair_hits_integrity_error :
    (directChatPost exDbC2 1 2).isCreated = true ∧
    (directChatPost exDbC2 1 2).resultDb.map (fun db1 => directChatPost db1 3 4)
      = some DirectChatResult.integrityError := by
  decide

/-- Result payload of MembershipViewSet.remove_self, distinguishing the two
outcomes reported to the caller. -/
inductive RemoveResult where
  | roomDeleted
  | leftRoom
  deriving DecidableEq, Repr

/-- Lookup of the membership row for (room, user) as in
`get_object_or_404(Membership.objects, room_id=room_id, user=request.user)`. -/
def findMembership (db : DB) (rid uid : Nat) : Option Membership :=
  db.memberships.find? (fun m => m.room == rid && m.user == uid)

/-- `Membership.objects.filter(room_id=room_id, role=admin).count()`. -/
def adminCount (db : DB) (rid : Nat) : Nat :=
  (db.memberships.filter (fun m => m.room == rid && m.role == Role.admin)).length

/-- MembershipViewSet.remove_self: fetch the membership of the requesting user
in the room (404, i.e. none, if absent); if the member is an admin and the
room has at most one admin, delete the room (messages and memberships cascade
through their on_delete=CASCADE foreign keys) and report roomDeleted;
otherwise delete only this membership and report leftRoom. -/
def remove_self (db : DB) (rid uid : Nat) : Option (DB × RemoveResult) :=
  match findMembership db rid uid with
  | none => none
  | some mem =>
      if mem.role = Role.admin ∧ adminCount db rid ≤ 1 then
        some ({ db with
                  rooms := db.rooms.filter (fun r => r.id != rid),
                  memberships := db.memberships.filter (fun m => m.room != rid),
                  messages := db.messages.filter (fun m => m.room != rid) },
              RemoveResult.roomDeleted)
      else
        some ({ db with
                  memberships :=
                    db.memberships.filter (fun m => !(m.room == rid && m.user == uid)) },
              RemoveResult.leftRoom)

/-- unique_together (user, room) on Membership: no two rows of the membership
table agree on both user and room. -/
def uniqueMemberships (db : DB) : Prop :=
  db.memberships.Pairwise (fun m1 m2 => ¬ (m1.room = m2.room ∧ m1.user = m2.user))

/-- The user holds an admin membership of the room. -/
def isAdminOf (db : DB) (rid uid : Nat) : Prop :=
  ∃ m ∈ db.memberships, m.room = rid ∧ m.user = uid ∧ m.role = Role.admin

/-- The user is the sole admin of the room. -/
def isSoleAdmin (db : DB) (rid uid : Nat) : Prop :=
  isAdminOf db rid uid ∧
    ∀ m ∈ db.memberships, m.room = rid → m.role = Role.admin → m.user = uid

/-- Some admin membership of the room belongs to another user, so removing
this user leaves at least one admin. -/
def otherAdminRemains (db : DB) (rid uid : Nat) : Prop :=
  ∃ m ∈ db.memberships, m.room = rid ∧ m.role = Role.admin ∧ m.user ≠ uid

/-- A list of memberships that pairwise disagree on (room, user) but all carry
the same (room, user) has at most one element. -/
theorem length_le_one_of_pairwise_same_key (l : List Membership) (rid uid : Nat)
    (hp : l.Pairwise (fun m1 m2 => ¬ (m1.room = m2.room ∧ m1.user = m2.user)))
    (h : ∀ m ∈ l, m.room = rid ∧ m.user = uid) : l.length ≤ 1 := by
  match l with
  | [] => simp
  | [a] => simp
  | a :: b :: t =>
      have hab := (List.pairwise_cons.mp hp).1 b (by simp)
      have h1 := h a (by simp)
      have h2 := h b (by simp)
      exact absurd ⟨h1.1.trans h2.1.symm, h1.2.trans h2.2.symm⟩ hab

/-- A list containing two distinct elements has length at least two. -/
theorem two_le_length_of_mem_ne {α : Type} [DecidableEq α] {l : List α} {a b : α}
    (ha : a ∈ l) (hb : b ∈ l) (hne : b ≠ a) : 2 ≤ l.length := by
  have hb2 : b ∈ l.erase a := (List.mem_erase_of_ne hne).mpr hb
  have h1 : 0 < (l.erase a).length := List.length_pos_of_mem hb2
  have h2 : (l.erase a).length = l.length - 1 := List.length_erase_of_mem ha
  omega

/-- C4: self-removal from a room.  When the requesting user is the sole admin,
the room row and every membership and message of the room are deleted and the
result says roomDeleted; when at least one admin other than the requester
exists, only the requesting user's membership row is deleted, the rooms and
messages tables are untouched, the other memberships survive, and the result
says leftRoom. -/
theorem remove_self_sole_admin_deletes_room (db : DB) (rid uid : Nat)
    (wf : uniqueMemberships db) (hmem : (findMembership db rid uid).isSome) :
    (isSoleAdmin db rid uid →
      ∃ db2, remove_self db rid uid = some (db2, RemoveResult.roomDeleted) ∧
        (∀ r ∈ db2.rooms, r.id ≠ rid) ∧
        (∀ m ∈ db2.memberships, m.room ≠ rid) ∧
        (∀ m ∈ db2.messages, m.room ≠ rid) ∧
        (∀ r ∈ db.rooms, r.id ≠ rid → r ∈ db2.rooms) ∧
        (∀ m ∈ db.memberships, m.room ≠ rid → m ∈ db2.memberships) ∧
        (∀ m ∈ db.messages, m.room ≠ rid → m ∈ db2.messages)) ∧
    (otherAdminRemains db rid uid →
      ∃ db2, remove_self db rid uid = some (db2, RemoveResult.leftRoom) ∧
        db2.rooms = db.rooms ∧ db2.messages = db.messages ∧
        (∀ m ∈ db2.memberships, ¬ (m.room = rid ∧ m.user = uid)) ∧
        (∀ m ∈ db.memberships, ¬ (m.room = rid ∧ m.user = uid) → m ∈ db2.memberships) ∧
        (∀ m ∈ db2.memberships, m ∈ db.memberships)) := by
  obtain ⟨mem, hfind⟩ := Option.isSome_iff_exists.mp hmem
  have hmemP := List.find?_some hfind
  simp only [Bool.and_eq_true, beq_iff_eq] at hmemP
  have hmemL : mem ∈ db.memberships := List.mem_of_find?_eq_some hfind
  have hsymm : Symmetric (fun m1 m2 : Membership =>
      ¬ (m1.room = m2.room ∧ m1.user = m2.user)) :=
    fun _ _ h hc => h ⟨hc.1.symm, hc.2.symm⟩
  constructor
  · intro hsole
    obtain ⟨ma, hmaL, hmaR, hmaU, hmaA⟩ := hsole.1
    have hma_eq : mem = ma := by
      by_cases hne : mem = ma
      · exact hne
      · exact absurd ⟨hmemP.1.trans hmaR.symm, hmemP.2.trans hmaU.symm⟩
          (wf.forall hsymm hmemL hmaL hne)
    have hrole : mem.role = Role.admin := hma_eq ▸ hmaA
    have hcount : adminCount db rid ≤ 1 := by
      apply length_le_one_of_pairwise_same_key _ rid uid
      · exact List.Pairwise.sublist (List.filter_sublist _) wf
      · intro m hmf
        have hmfp := List.mem_filter.mp hmf
        simp only [Bool.and_eq_true, beq_iff_eq] at hmfp
        exact ⟨hmfp.2.1, hsole.2 m hmfp.1 hmfp.2.1 hmfp.2.2⟩
    refine ⟨{ db with
                rooms := db.rooms.filter (fun r => r.id != rid),
                memberships := db.memberships.filter (fun m => m.room != rid),
                messages := db.messages.filter (fun m => m.room != rid) },
            ?_, ?_, ?_, ?_, ?_, ?_, ?_⟩
    · simp only [remove_self, hfind]
      rw [if_pos ⟨hrole, hcount⟩]
    · intro r hr
      have := (List.mem_filter.mp hr).2
      simpa using this
    · intro m hm
      have := (List.mem_filter.mp hm).2
      simpa using this
    · intro m hm
      have := (List.mem_filter.mp hm).2
      simpa using this
    · intro r hr hne
      exact List.mem_filter.mpr ⟨hr, by simpa using hne⟩
    · intro m hm hne
      exact List.mem_filter.mpr ⟨hm, by simpa using hne⟩
    · intro m hm hne
      exact List.mem_filter.mpr ⟨hm, by simpa using hne⟩
  · intro hother
    obtain ⟨ma, hmaL, hmaR, hmaA, hmaU⟩ := hother
    have hcond : ¬ (mem.role = Role.admin ∧ adminCount db rid ≤ 1) := by
      rintro ⟨hrole, hcount⟩
      have hmemF : mem ∈ db.memberships.filter
          (fun m => m.room == rid && m.role == Role.admin) :=
        List.mem_filter.mpr ⟨hmemL, by simp [hmemP.1, hrole]⟩
      have hmaF : ma ∈ db.memberships.filter
          (fun m => m.room == rid && m.role == Role.admin) :=
        List.mem_filter.mpr ⟨hmaL, by simp [hmaR, hmaA]⟩
      have hne : ma ≠ mem := fun he => hmaU (he ▸ hmemP.2)
      have := two_le_length_of_mem_ne hmemF hmaF hne
      unfold adminCount at hcount
      omega
    refine ⟨{ db with
                memberships :=
                  db.memberships.filter (fun m => !(m.room == rid && m.user == uid)) },
            ?_, rfl, rfl, ?_, ?_, ?_⟩
    · simp only [remove_self, hfind]
      rw [if_neg hcond]
    · intro m hm
      have := (List.mem_filter.mp hm).2
      rintro ⟨h1, h2⟩
      simp [h1, h2] at this
    · intro m hm hc
      refine List.mem_filter.mpr ⟨hm, ?_⟩
      by_cases h1 : m.room = rid
      · by_cases h2 : m.user = uid
        · exact absurd ⟨h1, h2⟩ hc
        · simp [h1, h2]
      · simp [h1]
    · intro m hm
      exact (List.mem_filter.mp hm).1

/-- Database for the C4 witness: room 1 has sole admin 1 and member 2, and one
message; room 2 has admins 1 and 3. -/
def exDbC4 : DB :=
  { users := [1, 2, 3],
    rooms := [{ id := 1, type := RoomType.group, name := some "g" },
              { id := 2, type := RoomType.group, name := some "h" }],
    memberships := [{ user := 1, room := 1, role := Role.admin },
                    { user := 2, room := 1, role := Role.member },
                    { user := 1, room := 2, role := Role.admin },
                    { user := 3, room := 2, role := Role.admin }],
    messages := [{ id := 1, content := "a", sender := 1, room := 1, timestamp := 0,
                   status := MsgStatus.sent, deleted := false, readBy := [],
                   attachment := none }],
    nextRoomId := 3, nextMessageId := 2, clock := 1 }

/-- Witness for the C4 theorem at a concrete database, in room 1 where user 1
is the sole admin. -/
theorem remove_self_sole_admin_deletes_room_witness :
    (isSoleAdmin exDbC4 1 1 →
      ∃ db2, remove_self exDbC4 1 1 = some (db2, RemoveResult.roomDeleted) ∧
        (∀ r ∈ db2.rooms, r.id ≠ 1) ∧
        (∀ m ∈ db2.memberships, m.room ≠ 1) ∧
        (∀ m ∈ db2.messages, m.room ≠ 1) ∧
        (∀ r ∈ exDbC4.rooms, r.id ≠ 1 → r ∈ db2.rooms) ∧
        (∀ m ∈ exDbC4.memberships, m.room ≠ 1 → m ∈ db2.memberships) ∧
        (∀ m ∈ exDbC4.messages, m.room ≠ 1 → m ∈ db2.messages)) ∧
    (otherAdminRemains exDbC4 1 1 →
      ∃ db2, remove_self exDbC4 1 1 = some (db2, RemoveResult.leftRoom) ∧
        db2.rooms = exDbC4.rooms ∧ db2.messages = exDbC4.messages ∧
        (∀ m ∈ db2.memberships, ¬ (m.room = 1 ∧ m.user = 1)) ∧
        (∀ m ∈ exDbC4.memberships, ¬ (m.room = 1 ∧ m.user = 1) → m ∈ db2.memberships) ∧
        (∀ m ∈ db2.memberships, m ∈ exDbC4.memberships)) :=
  remove_self_sole_admin_deletes_room exDbC4 1 1
    (by unfold uniqueMemberships; decide) (by decide)

/-- Connection scope: the principal put there by JWTAuthMiddleware (none for
AnonymousUser) and the room id from the URL route. -/
structure Scope where
  user : Option Nat
  roomId : Nat
  deriving DecidableEq, Repr

/-- The chat.message payload sent to the client for one replayed message. -/
def replayEventOf (m : Message) : OutEvent :=
  OutEvent.chatMessage (some m.id) m.content m.sender MessageKind.message (some m.status)

/-- One iteration of the history replay loop in ChatConsumer.connect: send the
message to the client, then, when the sender is not this user and the fetched
status is sent, escalate the stored status to delivered. -/
def replayStep (selfUser : Nat) (st : DB × List Action) (m : Message) : DB × List Action :=
  let acts := st.2 ++ [Action.send (replayEventOf m)]
  if m.sender ≠ selfUser ∧ m.status = MsgStatus.sent then
    let r := update_message_status st.1 selfUser m.id MsgStatus.delivered
    (r.1, acts ++ r.2)
  else (st.1, acts)

/-- The durable log of a room: its message rows in insertion order, which is
chronological order because create assigns timestamps from the monotone
clock. -/
def roomLog (db : DB) (rid : Nat) : List Message :=
  db.messages.filter (fun m => m.room == rid)

/-- `Message.objects.filter(room=room).order_by(-timestamp)[:50]`: the room
log in reverse chronological order, truncated to 50 rows. -/
def recentMessages (db : DB) (rid : Nat) : List Message :=
  (roomLog db rid).reverse.take 50

/-- The join broadcast payload of ChatConsumer.connect. -/
def joinEvent (uid : Nat) : GroupEvent :=
  GroupEvent.chatMessage none (toString uid ++ " joined the chat") uid MessageKind.join none

/-- ChatConsumer.connect: reject an anonymous principal with close code 4001;
reject a missing room with 4004; reject a non-member with 4002.  Otherwise
join the room group, accept, replay the last 50 messages oldest first
(escalating foreign sent messages to delivered), broadcast the join message
and broadcast presence online. -/
def connect (db : DB) (scope : Scope) : DB × List Action :=
  match scope.user with
  | none => (db, [Action.close 4001])
  | some uid =>
      match db.rooms.find? (fun r => r.id == scope.roomId) with
      | none => (db, [Action.close 4004])
      | some _ =>
          if memberOf db uid scope.roomId then
            let r := (recentMessages db scope.roomId).reverse.foldl (replayStep uid) (db, [])
            (r.1, Action.groupAdd :: Action.accept :: r.2 ++
              [Action.groupSend (joinEvent uid),
               Action.groupSend (GroupEvent.userStatus uid "online")])
          else (db, [Action.close 4002])

/-- C5: each of the three connection failure cases closes with its own
distinct numeric code (4001 unauthenticated, 4004 room not found, 4002 not a
member), the trace of a rejected attempt is exactly that close action, so the
session never accepts (never becomes Active) and no chat.message history is
ever sent on a rejected connection. -/
theorem connect_rejections_distinct_codes (db : DB) (scope : Scope) :
    (scope.user = none → connect db scope = (db, [Action.close 4001])) ∧
    (∀ uid, scope.user = some uid →
      db.rooms.find? (fun r => r.id == scope.roomId) = none →
      connect db scope = (db, [Action.close 4004])) ∧
    (∀ uid, scope.user = some uid →
      (db.rooms.find? (fun r => r.id == scope.roomId)).isSome →
      memberOf db uid scope.roomId = false →
      connect db scope = (db, [Action.close 4002])) ∧
    ((4001 : Nat) ≠ 4002 ∧ (4001 : Nat) ≠ 4004 ∧ (4002 : Nat) ≠ 4004) ∧
    (∀ c : Nat, Action.accept ∉ [Action.close c] ∧
      ∀ e : OutEvent, Action.send e ∉ [Action.close c]) := by
  refine ⟨?_, ?_, ?_, by omega, by simp⟩
  · intro h
    simp [connect, h]
  · intro uid hu hr
    simp [connect, hu, hr]
  · intro uid hu hr hm
    obtain ⟨room, hroom⟩ := Option.isSome_iff_exists.mp hr
    simp [connect, hu, hroom, hm]

/-- Witness for C5 at a concrete rejected connection: user 3 is no member of
room 1 in exDbC1. -/
theorem connect_rejections_distinct_codes_witness :
    connect exDbC1 { user := some 3, roomId := 1 } = (exDbC1, [Action.close 4002]) :=
  ((connect_rejections_distinct_codes exDbC1 { user := some 3, roomId := 1 }).2.2.1)
    3 rfl (by decide) (by decide)

/-- Actions produced by one replay iteration, as a function of the processed
message alone. -/
def stepActs (selfUser : Nat) (m : Message) : List Action :=
  Action.send (replayEventOf m) ::
    (if m.sender ≠ selfUser ∧ m.status = MsgStatus.sent then
      [Action.groupSend (GroupEvent.messageStatus m.id MsgStatus.delivered selfUser)]
     else [])

/-- find? by id succeeds whenever the id occurs in the id column. -/
theorem find?_id_isSome (l : List Message) (mid : Nat) (h : mid ∈ l.map Message.id) :
    (l.find? (fun m => m.id == mid)).isSome := by
  obtain ⟨m, hmL, hmid⟩ := List.mem_map.mp h
  cases hfind : l.find? (fun m => m.id == mid) with
  | some _ => rfl
  | none =>
      have := List.find?_eq_none.mp hfind m hmL
      simp [hmid] at this

/-- When the id exists, update_message_status broadcasts exactly one
message_status event. -/
theorem update_message_status_found (db : DB) (u mid : Nat) (st : MsgStatus)
    (h : mid ∈ db.messages.map Message.id) :
    (update_message_status db u mid st).2 =
      [Action.groupSend (GroupEvent.messageStatus mid st u)] := by
  unfold update_message_status
  cases hfind : db.messages.find? (fun m => m.id == mid) with
  | some _ => rfl
  | none =>
      have := find?_id_isSome db.messages mid h
      rw [hfind] at this
      simp at this

/-- A replay step on an accumulator splits into the step on an empty
accumulator. -/
theorem replayStep_split (u : Nat) (db : DB) (acts : List Action) (m : Message) :
    replayStep u (db, acts) m =
      ((replayStep u (db, []) m).1, acts ++ (replayStep u (db, []) m).2) := by
  unfold replayStep
  by_cases h : m.sender ≠ u ∧ m.status = MsgStatus.sent
  · simp [h]
  · simp [h]

/-- The replay fold splits off its initial action accumulator. -/
theorem foldl_replay_split (u : Nat) (hist : List Message) (db : DB) (acts : List Action) :
    hist.foldl (replayStep u) (db, acts) =
      ((hist.foldl (replayStep u) (db, [])).1,
       acts ++ (hist.foldl (replayStep u) (db, [])).2) := by
  induction hist generalizing db acts with
  | nil => simp
  | cons m t ih =>
      rw [List.foldl_cons, List.foldl_cons, replayStep_split]
      rw [ih (replayStep u (db, []) m).1 (acts ++ (replayStep u (db, []) m).2)]
      conv_rhs => rw [replayStep_split, ih (replayStep u (db, []) m).1]
      simp

/-- A replay step never changes the id column. -/
theorem replayStep_ids (u : Nat) (st : DB × List Action) (m : Message) :
    (replayStep u st m).1.messages.map Message.id = st.1.messages.map Message.id := by
  unfold replayStep
  by_cases h : m.sender ≠ u ∧ m.status = MsgStatus.sent
  · simp only [if_pos h]
    exact update_message_status_ids st.1 u m.id MsgStatus.delivered
  · simp [h]

/-- The replay fold never changes the id column. -/
theorem foldl_replay_ids (u : Nat) (hist : List Message) (st : DB × List Action) :
    (hist.foldl (replayStep u) st).1.messages.map Message.id
      = st.1.messages.map Message.id := by
  induction hist generalizing st with
  | nil => rfl
  | cons m t ih => rw [List.foldl_cons, ih, replayStep_ids]

/-- The actions of the replay fold are exactly the per-message send and
escalation actions, concatenated in history order. -/
theorem foldl_replay_acts (u : Nat) (hist : List Message) (db : DB)
    (hin : ∀ m ∈ hist, m.id ∈ db.messages.map Message.id) :
    (hist.foldl (replayStep u) (db, [])).2 = hist.flatMap (stepActs u) := by
  induction hist generalizing db with
  | nil => rfl
  | cons m t ih =>
      rw [List.foldl_cons]
      have hstep : replayStep u (db, []) m = ((replayStep u (db, []) m).1, stepActs u m) := by
        unfold replayStep stepActs
        by_cases h : m.sender ≠ u ∧ m.status = MsgStatus.sent
        · simp only [if_pos h]
          rw [update_message_status_found db u m.id MsgStatus.delivered (hin m (by simp))]
          simp
        · simp [h]
      rw [hstep, foldl_replay_split]
      have hin2 : ∀ x ∈ t, x.id ∈ (replayStep u (db, []) m).1.messages.map Message.id := by
        intro x hx
        rw [replayStep_ids]
        exact hin x (List.mem_cons_of_mem _ hx)
      rw [ih (replayStep u (db, []) m).1 hin2]
      simp [List.flatMap_cons]

/-- The replay fold does not touch the status of ids that occur in no
processed message. -/
theorem foldl_replay_status_untouched (u : Nat) (hist : List Message)
    (st : DB × List Action) (k : Nat) (h : ∀ m ∈ hist, m.id ≠ k) :
    statusOf (hist.foldl (replayStep u) st).1 k = statusOf st.1 k := by
  induction hist generalizing st with
  | nil => rfl
  | cons m t ih =>
      rw [List.foldl_cons, ih _ (fun x hx => h x (List.mem_cons_of_mem _ hx))]
      unfold replayStep
      by_cases hc : m.sender ≠ u ∧ m.status = MsgStatus.sent
      · simp only [if_pos hc]
        exact statusOf_update_other st.1 u m.id MsgStatus.delivered k
          (fun he => h m (by simp) he.symm)
      · simp [hc]

/-- After the replay fold, a processed foreign message that was at status sent
reads back as delivered (ids pairwise distinct). -/
theorem foldl_replay_status_delivered (u : Nat) (hist : List Message) (db : DB)
    (hnd : (hist.map Message.id).Nodup) (m : Message) (hm : m ∈ hist)
    (hcond : m.sender ≠ u ∧ m.status = MsgStatus.sent)
    (hid : m.id ∈ db.messages.map Message.id) :
    statusOf (hist.foldl (replayStep u) (db, [])).1 m.id = some MsgStatus.delivered := by
  induction hist generalizing db with
  | nil => cases hm
  | cons a t ih =>
      rw [List.foldl_cons]
      have hnd2 := List.nodup_cons.mp hnd
      rcases List.mem_cons.mp hm with heq | hmt
      · subst heq
        have huntouched := foldl_replay_status_untouched u t (replayStep u (db, []) m) m.id
          (fun x hx he => hnd2.1 (he ▸ List.mem_map_of_mem Message.id hx))
        rw [huntouched]
        unfold replayStep
        simp only [if_pos hcond]
        exact statusOf_update_self db u m.id MsgStatus.delivered
          (find?_id_isSome db.messages m.id hid)
      · rw [foldl_replay_split]
        have hid2 : m.id ∈ (replayStep u (db, []) a).1.messages.map Message.id := by
          rw [replayStep_ids]
          exact hid
        exact ih (replayStep u (db, []) a).1 hnd2.2 hmt hid2

/-- Projection keeping only the payloads sent directly to the client. -/
def sentClient : Action → Option OutEvent
  | Action.send e => some e
  | _ => none

/-- The client sends of the replay actions are exactly the replayed messages,
in order. -/
theorem filterMap_sentClient_flatMap (u : Nat) (hist : List Message) :
    (hist.flatMap (stepActs u)).filterMap sentClient = hist.map replayEventOf := by
  induction hist with
  | nil => rfl
  | cons m t ih =>
      rw [List.flatMap_cons, List.filterMap_append, ih]
      unfold stepActs
      by_cases h : m.sender ≠ u ∧ m.status = MsgStatus.sent
      · simp [h, sentClient]
      · simp [h, sentClient]

/-- Strict chronological ordering of a message list. -/
def Chronological (l : List Message) : Prop :=
  l.Chain' (fun a b => a.timestamp < b.timestamp)

instance : IsTrans Message (fun a b => a.timestamp < b.timestamp) :=
  ⟨fun _ _ _ h1 h2 => Nat.lt_trans h1 h2⟩

/-- C6: on a successful connect, the session replays to the client exactly the
most recent min(50, total) messages of the room log — the length-min(50,n)
suffix of the chronologically ordered log — oldest first, and every replayed
send precedes the join broadcast and the presence broadcast in the trace. -/
theorem connect_replays_recent_history (db : DB) (scope : Scope) (uid : Nat)
    (hu : scope.user = some uid)
    (hr : (db.rooms.find? (fun r => r.id == scope.roomId)).isSome)
    (hm : memberOf db uid scope.roomId = true)
    (hchron : Chronological db.messages) :
    let log := roomLog db scope.roomId
    let hist := log.drop (log.length - min 50 log.length)
    ∃ replayActs,
      (connect db scope).2 =
        Action.groupAdd :: Action.accept :: replayActs ++
          [Action.groupSend (joinEvent uid),
           Action.groupSend (GroupEvent.userStatus uid "online")] ∧
      replayActs.filterMap sentClient = hist.map replayEventOf ∧
      hist.length = min 50 log.length ∧
      hist <:+ log ∧
      Chronological hist := by
  intro log hist
  have hhm : hist = log.drop (log.length - min 50 log.length) := rfl
  have hlm : log = roomLog db scope.roomId := rfl
  obtain ⟨room, hroom⟩ := Option.isSome_iff_exists.mp hr
  have hhist : (recentMessages db scope.roomId).reverse = hist := by
    rw [hhm, hlm]
    show ((roomLog db scope.roomId).reverse.take 50).reverse = _
    rw [List.take_reverse, List.reverse_reverse]
    have heq : (roomLog db scope.roomId).length - 50
        = (roomLog db scope.roomId).length - min 50 (roomLog db scope.roomId).length := by
      omega
    rw [heq]
  have hin : ∀ m ∈ hist, m.id ∈ db.messages.map Message.id := by
    intro m hmm
    rw [hhm, hlm] at hmm
    have h1 : m ∈ roomLog db scope.roomId := (List.drop_suffix _ _).subset hmm
    have h2 : m ∈ db.messages := List.mem_of_mem_filter h1
    exact List.mem_map_of_mem Message.id h2
  refine ⟨((recentMessages db scope.roomId).reverse.foldl (replayStep uid) (db, [])).2,
    ?_, ?_, ?_, ?_, ?_⟩
  · simp [connect, hu, hroom, hm]
  · rw [hhist, foldl_replay_acts uid hist db hin, filterMap_sentClient_flatMap]
  · rw [hhm, List.length_drop]
    omega
  · rw [hhm]
    exact List.drop_suffix _ _
  · have hlog : Chronological log :=
      List.Chain'.sublist hchron (hlm ▸ List.filter_sublist db.messages)
    rw [hhm]
    exact List.Chain'.suffix hlog (List.drop_suffix _ _)

/-- Witness for C6 at the concrete one-message database, connecting user 2. -/
theorem connect_replays_recent_history_witness :
    let log := roomLog exDbC1 1
    let hist := log.drop (log.length - min 50 log.length)
    ∃ replayActs,
      (connect exDbC1 { user := some 2, roomId := 1 }).2 =
        Action.groupAdd :: Action.accept :: replayActs ++
          [Action.groupSend (joinEvent 2),
           Action.groupSend (GroupEvent.userStatus 2 "online")] ∧
      replayActs.filterMap sentClient = hist.map replayEventOf ∧
      hist.length = min 50 log.length ∧
      hist <:+ log ∧
      Chronological hist :=
  connect_replays_recent_history exDbC1 { user := some 2, roomId := 1 } 2 rfl
    (by decide) (by decide) (by show List.Chain' _ _; simp [exDbC1])

/-- Payload of a broadcast chat_message event as consumed by the
ChatConsumer.chat_message handler. -/
structure ChatMsgEvent where
  messageId : Option Nat
  content : String
  user : Nat
  kind : MessageKind
  status : Option MsgStatus
  deriving DecidableEq, Repr

/-- The chat.message frame forwarded to the client by the handler. -/
def forwardEvent (e : ChatMsgEvent) : OutEvent :=
  OutEvent.chatMessage e.messageId e.content e.user e.kind e.status

/-- ChatConsumer.chat_message: forward the event to the client; when the event
is a fresh message (message_type message) from another user at status sent,
escalate the stored message status to delivered.  A missing message_id in that
case raises KeyError, which the handler catches and reports to this client as
an error event. -/
def chat_message (db : DB) (selfUser : Nat) (e : ChatMsgEvent) : DB × List Action :=
  if e.kind = MessageKind.message ∧ e.user ≠ selfUser ∧ e.status = some MsgStatus.sent then
    match e.messageId with
    | some mid =>
        ((update_message_status db selfUser mid MsgStatus.delivered).1,
         Action.send (forwardEvent e)
           :: (update_message_status db selfUser mid MsgStatus.delivered).2)
    | none =>
        (db, [Action.send (forwardEvent e),
              Action.send (OutEvent.error "message_id")])
  else (db, [Action.send (forwardEvent e)])

/-- The replayed history (oldest first) has pairwise distinct ids whenever the
message table has. -/
theorem recent_ids_nodup (db : DB) (rid : Nat)
    (hnd : (db.messages.map Message.id).Nodup) :
    ((recentMessages db rid).reverse.map Message.id).Nodup := by
  unfold recentMessages
  rw [List.map_reverse, List.nodup_reverse]
  apply List.Nodup.sublist (List.Sublist.map Message.id (List.take_sublist _ _))
  rw [List.map_reverse, List.nodup_reverse]
  exact List.Nodup.sublist (List.Sublist.map Message.id (List.filter_sublist _)) hnd

/-- Every replayed message is a row of the message table. -/
theorem mem_recent_mem_messages (db : DB) (rid : Nat) (m : Message)
    (hm : m ∈ (recentMessages db rid).reverse) : m ∈ db.messages := by
  rw [List.mem_reverse] at hm
  have h1 : m ∈ (roomLog db rid).reverse := List.mem_of_mem_take hm
  rw [List.mem_reverse] at h1
  exact List.mem_of_mem_filter h1

/-- The replay fold leaves the status of a processed message untouched when
the message was own or not at status sent (ids pairwise distinct). -/
theorem foldl_replay_status_nontrigger (u : Nat) (hist : List Message) (db : DB)
    (hnd : (hist.map Message.id).Nodup) (m : Message) (hm : m ∈ hist)
    (hneg : m.sender = u ∨ m.status ≠ MsgStatus.sent) :
    statusOf (hist.foldl (replayStep u) (db, [])).1 m.id = statusOf db m.id := by
  induction hist generalizing db with
  | nil => rfl
  | cons a t ih =>
      rw [List.foldl_cons]
      have hnd2 := List.nodup_cons.mp hnd
      rcases List.mem_cons.mp hm with heq | hmt
      · subst heq
        have huntouched := foldl_replay_status_untouched u t (replayStep u (db, []) m) m.id
          (fun x hx he => hnd2.1 (he ▸ List.mem_map_of_mem Message.id hx))
        rw [huntouched]
        unfold replayStep
        have hc : ¬ (m.sender ≠ u ∧ m.status = MsgStatus.sent) := by
          rcases hneg with h | h
          · exact fun hc => hc.1 h
          · exact fun hc => h hc.2
        simp [hc]
      · rw [foldl_replay_split]
        have hane : a.id ≠ m.id :=
          fun he => hnd2.1 (he ▸ List.mem_map_of_mem Message.id hmt)
        have hstep : statusOf (replayStep u (db, []) a).1 m.id = statusOf db m.id := by
          unfold replayStep
          by_cases hc : a.sender ≠ u ∧ a.status = MsgStatus.sent
          · simp only [if_pos hc]
            exact statusOf_update_other db u a.id MsgStatus.delivered m.id
              (fun h => hane h.symm)
          · simp [hc]
        rw [ih (replayStep u (db, []) a).1 hnd2.2 hmt, hstep]

/-- No message_status broadcast for an untriggered message occurs among the
replay actions (ids pairwise distinct). -/
theorem messageStatus_not_in_replay_acts (u : Nat) (hist : List Message)
    (hnd : (hist.map Message.id).Nodup) (m : Message) (hm : m ∈ hist)
    (hneg : m.sender = u ∨ m.status ≠ MsgStatus.sent) (st : MsgStatus) (u2 : Nat) :
    Action.groupSend (GroupEvent.messageStatus m.id st u2) ∉ hist.flatMap (stepActs u) := by
  intro hmem
  obtain ⟨x, hxL, hxA⟩ := List.mem_flatMap.mp hmem
  unfold stepActs at hxA
  rcases List.mem_cons.mp hxA with heq | htail
  · simp [replayEventOf] at heq
  · by_cases hc : x.sender ≠ u ∧ x.status = MsgStatus.sent
    · rw [if_pos hc] at htail
      have heq2 := List.mem_singleton.mp htail
      have hid : m.id = x.id := by
        injection heq2 with h1
        injection h1
      have hxm : x = m := List.inj_on_of_nodup_map hnd hxL hm hid.symm
      subst hxm
      rcases hneg with h | h
      · exact hc.1 h
      · exact h hc.2
    · rw [if_neg hc] at htail
      cases htail

/-- C7: a session escalates exactly the foreign messages at status sent to
delivered.  On the live path, a chat.message broadcast of kind message from
another user at status sent triggers a message_status delivered broadcast and
the stored status becomes delivered; events that are own, not at sent, or not
of kind message trigger no status broadcast and leave the store unchanged.
On the connect replay path, each replayed message from another user at status
sent gets a delivered broadcast and its stored status becomes delivered, and
every other replayed message gets no message_status broadcast and keeps its
stored status. -/
theorem session_escalates_foreign_sent (db : DB) (uid : Nat)
    (hnd : (db.messages.map Message.id).Nodup) :
    (∀ e : ChatMsgEvent, ∀ mid : Nat,
      e.kind = MessageKind.message → e.user ≠ uid → e.status = some MsgStatus.sent →
      e.messageId = some mid → mid ∈ db.messages.map Message.id →
      Action.groupSend (GroupEvent.messageStatus mid MsgStatus.delivered uid)
          ∈ (chat_message db uid e).2 ∧
        statusOf (chat_message db uid e).1 mid = some MsgStatus.delivered) ∧
    (∀ e : ChatMsgEvent,
      e.kind ≠ MessageKind.message ∨ e.user = uid ∨ e.status ≠ some MsgStatus.sent →
      (chat_message db uid e).1 = db ∧
        ∀ k st u2, Action.groupSend (GroupEvent.messageStatus k st u2)
          ∉ (chat_message db uid e).2) ∧
    (∀ scope : Scope, scope.user = some uid →
      (db.rooms.find? (fun r => r.id == scope.roomId)).isSome →
      memberOf db uid scope.roomId = true →
      ∀ m ∈ (recentMessages db scope.roomId).reverse,
        ((m.sender ≠ uid ∧ m.status = MsgStatus.sent) →
          Action.groupSend (GroupEvent.messageStatus m.id MsgStatus.delivered uid)
              ∈ (connect db scope).2 ∧
            statusOf (connect db scope).1 m.id = some MsgStatus.delivered) ∧
        ((m.sender = uid ∨ m.status ≠ MsgStatus.sent) →
          (∀ st u2, Action.groupSend (GroupEvent.messageStatus m.id st u2)
              ∉ (connect db scope).2) ∧
            statusOf (connect db scope).1 m.id = statusOf db m.id)) := by
  refine ⟨?_, ?_, ?_⟩
  · intro e mid hk hu2 hs hmid hin
    have hcond : e.kind = MessageKind.message ∧ e.user ≠ uid ∧ e.status = some MsgStatus.sent :=
      ⟨hk, hu2, hs⟩
    unfold chat_message
    rw [if_pos hcond, hmid]
    constructor
    · show Action.groupSend (GroupEvent.messageStatus mid MsgStatus.delivered uid)
        ∈ Action.send (forwardEvent e)
            :: (update_message_status db uid mid MsgStatus.delivered).2
      rw [update_message_status_found db uid mid MsgStatus.delivered hin]
      simp
    · show statusOf (update_message_status db uid mid MsgStatus.delivered).1 mid
        = some MsgStatus.delivered
      exact statusOf_update_self db uid mid MsgStatus.delivered
        (find?_id_isSome db.messages mid hin)
  · intro e hneg
    have hcond : ¬ (e.kind = MessageKind.message ∧ e.user ≠ uid
        ∧ e.status = some MsgStatus.sent) := by
      rcases hneg with h | h | h
      · exact fun hc => h hc.1
      · exact fun hc => hc.2.1 h
      · exact fun hc => h hc.2.2
    unfold chat_message
    rw [if_neg hcond]
    exact ⟨rfl, by intro k st u2; simp [forwardEvent]⟩
  · intro scope hu hr hm m hmhist
    obtain ⟨room, hroom⟩ := Option.isSome_iff_exists.mp hr
    have hconn : connect db scope =
        (((recentMessages db scope.roomId).reverse.foldl (replayStep uid) (db, [])).1,
         Action.groupAdd :: Action.accept ::
           ((recentMessages db scope.roomId).reverse.foldl (replayStep uid) (db, [])).2 ++
           [Action.groupSend (joinEvent uid),
            Action.groupSend (GroupEvent.userStatus uid "online")]) := by
      simp [connect, hu, hroom, hm]
    have hhnd : (((recentMessages db scope.roomId).reverse).map Message.id).Nodup :=
      recent_ids_nodup db scope.roomId hnd
    have hin : ∀ x ∈ (recentMessages db scope.roomId).reverse,
        x.id ∈ db.messages.map Message.id :=
      fun x hx => List.mem_map_of_mem Message.id (mem_recent_mem_messages db scope.roomId x hx)
    have hacts : ((recentMessages db scope.roomId).reverse.foldl (replayStep uid) (db, [])).2
        = ((recentMessages db scope.roomId).reverse).flatMap (stepActs uid) :=
      foldl_replay_acts uid _ db hin
    constructor
    · intro hcond
      constructor
      · rw [hconn]
        have hstep : Action.groupSend (GroupEvent.messageStatus m.id MsgStatus.delivered uid)
            ∈ ((recentMessages db scope.roomId).reverse.foldl (replayStep uid) (db, [])).2 := by
          rw [hacts]
          refine List.mem_flatMap.mpr ⟨m, hmhist, ?_⟩
          simp [stepActs, hcond]
        exact List.mem_cons_of_mem _
          (List.mem_cons_of_mem _ (List.mem_append_left _ hstep))
      · rw [hconn]
        exact foldl_replay_status_delivered uid _ db hhnd m hmhist hcond
          (hin m hmhist)
    · intro hneg
      constructor
      · intro st u2
        rw [hconn]
        intro hmem
        rcases List.mem_cons.mp hmem with h | hmem2
        · exact Action.noConfusion h
        rcases List.mem_cons.mp hmem2 with h | hmem3
        · exact Action.noConfusion h
        rcases List.mem_append.mp hmem3 with h | h
        · rw [hacts] at h
          exact messageStatus_not_in_replay_acts uid _ hhnd m hmhist hneg st u2 h
        · simp [joinEvent] at h
      · rw [hconn]
        exact foldl_replay_status_nontrigger uid _ db hhnd m hmhist hneg

/-- Witness for C7 at the concrete database: the live event for message 1 from
user 1 at status sent, observed by the session of user 2. -/
theorem session_escalates_foreign_sent_witness :
    Action.groupSend (GroupEvent.messageStatus 1 MsgStatus.delivered 2)
        ∈ (chat_message exDbC1 2
            { messageId := some 1, content := "hi", user := 1,
              kind := MessageKind.message, status := some MsgStatus.sent }).2 ∧
      statusOf (chat_message exDbC1 2
            { messageId := some 1, content := "hi", user := 1,
              kind := MessageKind.message, status := some MsgStatus.sent }).1 1
        = some MsgStatus.delivered :=
  (session_escalates_foreign_sent exDbC1 2 (by decide)).1
    { messageId := some 1, content := "hi", user := 1,
      kind := MessageKind.message, status := some MsgStatus.sent }
    1 rfl (by decide) rfl rfl (by decide)

/-- The four cleanup steps of ChatConsumer.disconnect, in program order:
presence offline broadcast, typing false broadcast, leave broadcast, group
discard. -/
inductive CleanupStep where
  | presenceOffline
  | typingFalse
  | leaveBroadcast
  | hubDiscard
  deriving DecidableEq, Repr

/-- Fault injection: which cleanup steps raise when attempted. -/
structure StepFailures where
  offlineFails : Bool
  typingFails : Bool
  leaveFails : Bool
  discardFails : Bool
  deriving DecidableEq, Repr

/-- ChatConsumer.disconnect: the hasattr guard skips everything for sessions
that never reached Active; otherwise the four steps run in order inside one
try/except, so the first step that raises aborts the remaining ones (its own
attempt is listed) and the exception is only logged. -/
def disconnectAttempted (hasState : Bool) (f : StepFailures) : List CleanupStep :=
  if hasState then
    CleanupStep.presenceOffline ::
      (if f.offlineFails then [] else
        CleanupStep.typingFalse ::
          (if f.typingFails then [] else
            CleanupStep.leaveBroadcast ::
              (if f.leaveFails then [] else [CleanupStep.hubDiscard])))
  else []

/-- All four cleanup steps in program order. -/
def allCleanupSteps : List CleanupStep :=
  [CleanupStep.presenceOffline, CleanupStep.typingFalse,
   CleanupStep.leaveBroadcast, CleanupStep.hubDiscard]

/-- Index after the step whose failure ends the cleanup sequence. -/
def firstFailureCutoff (f : StepFailures) : Nat :=
  if f.offlineFails then 1 else if f.typingFails then 2 else if f.leaveFails then 3 else 4

/-- C8 counterexample: when the first cleanup step (presence offline) fails on
an Active session, the remaining three steps are not attempted — the whole
body sits in a single try/except, so the claimed per-step wrapping is absent. -/
theorem disconnect_first_failure_skips_rest :
    disconnectAttempted true
        { offlineFails := true, typingFails := false,
          leaveFails := false, discardFails := false }
      = [CleanupStep.presenceOffline] ∧
    CleanupStep.typingFalse ∉ disconnectAttempted true
        { offlineFails := true, typingFails := false,
          leaveFails := false, discardFails := false } ∧
    CleanupStep.leaveBroadcast ∉ disconnectAttempted true
        { offlineFails := true, typingFails := false,
          leaveFails := false, discardFails := false } ∧
    CleanupStep.hubDiscard ∉ disconnectAttempted true
        { offlineFails := true, typingFails := false,
          leaveFails := false, discardFails := false } := by
  decide

/-- C8 (amended): on disconnect of an Active session the four cleanup steps
are attempted in order inside a single exception handler: exactly the steps up
to and including the first failing one are attempted, so when no step fails
all four run, but a failure in an earlier step does prevent the later steps
(including the hub unsubscribe) from running; sessions without connect state
attempt nothing. -/
theorem disconnect_attempts_prefix_until_failure (f : StepFailures) :
    disconnectAttempted true f = allCleanupSteps.take (firstFailureCutoff f) ∧
    ((f.offlineFails = false ∧ f.typingFails = false ∧ f.leaveFails = false) →
      disconnectAttempted true f = allCleanupSteps) ∧
    disconnectAttempted false f = [] := by
  rcases f with ⟨a, b, c, d⟩
  cases a <;> cases b <;> cases c <;> cases d <;>
    simp [disconnectAttempted, firstFailureCutoff, allCleanupSteps]

/-- Witness for the amended C8 theorem at the failure-free assignment. -/
theorem disconnect_attempts_prefix_until_failure_witness :
    disconnectAttempted true
        { offlineFails := false, typingFails := false,
          leaveFails := false, discardFails := false }
      = allCleanupSteps.take (firstFailureCutoff
          { offlineFails := false, typingFails := false,
            leaveFails := false, discardFails := false }) ∧
    (((StepFailures.mk false false false false).offlineFails = false ∧
      (StepFailures.mk false false false false).typingFails = false ∧
      (StepFailures.mk false false false false).leaveFails = false) →
      disconnectAttempted true (StepFailures.mk false false false false) = allCleanupSteps) ∧
    disconnectAttempted false (StepFailures.mk false false false false) = [] :=
  disconnect_attempts_prefix_until_failure (StepFailures.mk false false false false)

/-- Row condition of the MarkMessagesReadView.post queryset: in the room,
not sent by the user, user not yet in read_by. -/
def markReadCond (rid uid : Nat) (m : Message) : Bool :=
  m.room == rid && m.sender != uid && !(m.readBy.contains uid)

/-- Effect of the read_by.add loop on one row. -/
def markReadApply (rid uid : Nat) (m : Message) : Message :=
  if markReadCond rid uid m then { m with readBy := m.readBy ++ [uid] } else m

/-- The queryset of MarkMessagesReadView.post. -/
def markReadTarget (db : DB) (rid uid : Nat) : List Message :=
  db.messages.filter (markReadCond rid uid)

/-- MarkMessagesReadView.post: count the queryset, then add the user to
read_by of each of its messages, and answer the count. -/
def markMessagesRead (db : DB) (rid uid : Nat) : DB × Nat :=
  ({ db with messages := db.messages.map (markReadApply rid uid) },
   (markReadTarget db rid uid).length)

/-- List.contains agrees with membership on Nat lists. -/
theorem contains_true_iff (l : List Nat) (a : Nat) : l.contains a = true ↔ a ∈ l :=
  List.elem_iff

/-- C9: markRead adds the user to read_by of exactly the messages of the room
that the user did not send and had not read (everything else about every row
is unchanged, and other users' read_by membership is unchanged), returns the
count of the affected rows, and is idempotent: an immediate second call
returns 0 and leaves the database exactly as it was. -/
theorem markRead_exactly_unread_foreign_and_idempotent (db : DB) (rid uid : Nat) :
    (markMessagesRead db rid uid).2 = (markReadTarget db rid uid).length ∧
    List.Forall₂ (fun m m2 : Message =>
        m2.id = m.id ∧ m2.room = m.room ∧ m2.sender = m.sender ∧
        m2.content = m.content ∧ m2.status = m.status ∧ m2.deleted = m.deleted ∧
        (uid ∈ m2.readBy ↔ (uid ∈ m.readBy ∨ (m.room = rid ∧ m.sender ≠ uid))) ∧
        (∀ v, v ≠ uid → (v ∈ m2.readBy ↔ v ∈ m.readBy)))
      db.messages (markMessagesRead db rid uid).1.messages ∧
    markMessagesRead (markMessagesRead db rid uid).1 rid uid
      = ((markMessagesRead db rid uid).1, 0) := by
  have hcond_mem : ∀ m : Message, markReadCond rid uid m = true ↔
      (m.room = rid ∧ m.sender ≠ uid ∧ uid ∉ m.readBy) := by
    intro m
    unfold markReadCond
    rw [Bool.and_eq_true, Bool.and_eq_true]
    constructor
    · rintro ⟨⟨h1, h2⟩, h3⟩
      refine ⟨by simpa using h1, by simpa using h2, ?_⟩
      intro hin
      rw [Bool.not_eq_eq_eq_not, Bool.not_true] at h3
      rw [← contains_true_iff m.readBy uid, h3] at hin
      cases hin
    · rintro ⟨h1, h2, h3⟩
      refine ⟨⟨by simpa using h1, by simpa using h2⟩, ?_⟩
      have : m.readBy.contains uid = false := by
        cases hx : m.readBy.contains uid
        · rfl
        · exact absurd ((contains_true_iff m.readBy uid).mp hx) h3
      rw [this]
      rfl
  have happly_nofire : ∀ a ∈ db.messages.map (markReadApply rid uid),
      markReadCond rid uid a = false := by
    intro a ha
    obtain ⟨m, hm, rfl⟩ := List.mem_map.mp ha
    unfold markReadApply
    by_cases hc : markReadCond rid uid m = true
    · rw [if_pos hc]
      cases hx : markReadCond rid uid { m with readBy := m.readBy ++ [uid] }
      · rfl
      · exfalso
        have := (hcond_mem _).mp hx
        exact this.2.2 (List.mem_append_right _ (by simp))
    · rw [if_neg hc]
      cases hx : markReadCond rid uid m
      · rfl
      · exact absurd hx hc
  have htarget_nil : markReadTarget (markMessagesRead db rid uid).1 rid uid = [] := by
    unfold markReadTarget
    rw [List.filter_eq_nil_iff]
    intro a ha
    rw [happly_nofire a ha]
    simp
  refine ⟨rfl, ?_, ?_⟩
  · show List.Forall₂ _ db.messages (db.messages.map (markReadApply rid uid))
    rw [List.forall₂_map_right_iff, List.forall₂_same]
    intro m hm
    unfold markReadApply
    by_cases hc : markReadCond rid uid m = true
    · rw [if_pos hc]
      have hp := (hcond_mem m).mp hc
      refine ⟨rfl, rfl, rfl, rfl, rfl, rfl, ?_, ?_⟩
      · exact ⟨fun _ => Or.inr ⟨hp.1, hp.2.1⟩,
               fun _ => List.mem_append_right _ (by simp)⟩
      · intro v hv
        constructor
        · intro hvin
          rcases List.mem_append.mp hvin with h | h
          · exact h
          · exact absurd (List.mem_singleton.mp h) hv
        · exact fun h => List.mem_append_left _ h
    · rw [if_neg hc]
      refine ⟨rfl, rfl, rfl, rfl, rfl, rfl, ?_, fun v hv => Iff.rfl⟩
      constructor
      · exact fun h => Or.inl h
      · rintro (h | ⟨h1, h2⟩)
        · exact h
        · by_contra hnotin
          exact hc ((hcond_mem m).mpr ⟨h1, h2, hnotin⟩)
  · have hmapid : (markMessagesRead db rid uid).1.messages.map (markReadApply rid uid)
        = (markMessagesRead db rid uid).1.messages := by
      show (db.messages.map (markReadApply rid uid)).map (markReadApply rid uid)
        = db.messages.map (markReadApply rid uid)
      have hcongr : ∀ a ∈ db.messages.map (markReadApply rid uid),
          markReadApply rid uid a = a := by
        intro a ha
        unfold markReadApply
        rw [happly_nofire a ha]
        rfl
      rw [List.map_congr_left hcongr]
      simp
    show ({ (markMessagesRead db rid uid).1 with
             messages := (markMessagesRead db rid uid).1.messages.map (markReadApply rid uid) },
          (markReadTarget (markMessagesRead db rid uid).1 rid uid).length)
      = ((markMessagesRead db rid uid).1, 0)
    rw [hmapid, htarget_nil]
    rfl

/-- A parsed inbound client frame (json.loads result), with the fields the
receive handler reads via dict.get. -/
structure InEvent where
  type : Option String
  message : Option String
  status : Option String
  isTyping : Option Bool
  messageId : Option Nat
  deriving DecidableEq, Repr

/-- Message.objects.create in ChatConsumer.receive: append a row with the
given content, the session user as sender, the session room, status sending
and the current clock as timestamp, returning the fresh primary key. -/
def createMessage (db : DB) (uid rid : Nat) (content : String) : DB × Nat :=
  ({ db with
      messages := db.messages ++
        [{ id := db.nextMessageId, content := content, sender := uid, room := rid,
           timestamp := db.clock, status := MsgStatus.sending, deleted := false,
           readBy := [], attachment := none }],
      nextMessageId := db.nextMessageId + 1,
      clock := db.clock + 1 },
   db.nextMessageId)

/-- ChatConsumer.receive: the type field defaults to message; status events
broadcast presence when the value is one of online, offline, away; typing
events broadcast the flag (defaulting to false); read_receipt events mark the
message seen when message_id is truthy; every other frame falls through to
the message branch, which clears the typing flag, persists the message field
(defaulting to the empty string) at status sending, broadcasts the chat
message at status sent, and then updates the stored status to sent. -/
def receive (db : DB) (uid rid : Nat) (e : InEvent) : DB × List Action :=
  if e.type.getD "message" = "status" then
    match e.status with
    | some s =>
        if s = "online" ∨ s = "offline" ∨ s = "away" then
          (db, [Action.groupSend (GroupEvent.userStatus uid s)])
        else (db, [])
    | none => (db, [])
  else if e.type.getD "message" = "typing" then
    (db, [Action.groupSend (GroupEvent.typingStatus uid (e.isTyping.getD false))])
  else if e.type.getD "message" = "read_receipt" then
    match e.messageId with
    | some mid =>
        if mid ≠ 0 then update_message_status db uid mid MsgStatus.seen
        else (db, [])
    | none => (db, [])
  else
    ((update_message_status
        (createMessage db uid rid (e.message.getD "")).1 uid
        (createMessage db uid rid (e.message.getD "")).2 MsgStatus.sent).1,
     Action.groupSend (GroupEvent.typingStatus uid false) ::
       Action.groupSend (GroupEvent.chatMessage
         (some (createMessage db uid rid (e.message.getD "")).2)
         (e.message.getD "") uid MessageKind.message (some MsgStatus.sent)) ::
       (update_message_status
         (createMessage db uid rid (e.message.getD "")).1 uid
         (createMessage db uid rid (e.message.getD "")).2 MsgStatus.sent).2)

/-- find? for a fresh id misses every existing row. -/
theorem find?_fresh_eq_none (l : List Message) (n : Nat) (h : ∀ m ∈ l, m.id < n) :
    l.find? (fun m => m.id == n) = none :=
  List.find?_eq_none.mpr (fun m hm => by
    simp only [beq_iff_eq]
    exact Nat.ne_of_lt (h m hm))

/-- C10: an inbound frame whose type is absent or none of status, typing,
read_receipt is treated as a message send: the typing flag is cleared, a
message row with the frame's message field (empty string if absent) is
appended and ends at status sent, and the message is broadcast to the room at
status sent followed by the sent status update — no rejection happens, and
empty content is persisted. -/
theorem receive_unknown_type_is_message_send (db : DB) (uid rid : Nat) (e : InEvent)
    (h1 : e.type.getD "message" ≠ "status")
    (h2 : e.type.getD "message" ≠ "typing")
    (h3 : e.type.getD "message" ≠ "read_receipt")
    (hwf : ∀ m ∈ db.messages, m.id < db.nextMessageId) :
    (receive db uid rid e).1.messages = db.messages ++
      [{ id := db.nextMessageId, content := e.message.getD "", sender := uid,
         room := rid, timestamp := db.clock, status := MsgStatus.sent,
         deleted := false, readBy := [], attachment := none }] ∧
    (receive db uid rid e).2 =
      [Action.groupSend (GroupEvent.typingStatus uid false),
       Action.groupSend (GroupEvent.chatMessage (some db.nextMessageId)
         (e.message.getD "") uid MessageKind.message (some MsgStatus.sent)),
       Action.groupSend (GroupEvent.messageStatus db.nextMessageId MsgStatus.sent uid)] := by
  have hkey : receive db uid rid e =
      ((update_message_status
          (createMessage db uid rid (e.message.getD "")).1 uid
          db.nextMessageId MsgStatus.sent).1,
       Action.groupSend (GroupEvent.typingStatus uid false) ::
         Action.groupSend (GroupEvent.chatMessage (some db.nextMessageId)
           (e.message.getD "") uid MessageKind.message (some MsgStatus.sent)) ::
         (update_message_status
           (createMessage db uid rid (e.message.getD "")).1 uid
           db.nextMessageId MsgStatus.sent).2) := by
    unfold receive
    rw [if_neg h1, if_neg h2, if_neg h3]
    rfl
  have hfind : (createMessage db uid rid (e.message.getD "")).1.messages.find?
      (fun m => m.id == db.nextMessageId) =
        some { id := db.nextMessageId, content := e.message.getD "", sender := uid,
               room := rid, timestamp := db.clock, status := MsgStatus.sending,
               deleted := false, readBy := [], attachment := none } := by
    show (db.messages ++ [_]).find? _ = _
    rw [List.find?_append, find?_fresh_eq_none db.messages db.nextMessageId hwf]
    simp
  constructor
  · rw [hkey]
    show (update_message_status
        (createMessage db uid rid (e.message.getD "")).1 uid
        db.nextMessageId MsgStatus.sent).1.messages = _
    unfold update_message_status
    rw [hfind]
    show ((createMessage db uid rid (e.message.getD "")).1.messages.map _) = _
    show ((db.messages ++ [_]).map _) = _
    rw [List.map_append]
    have hleft : db.messages.map
        (fun m => if m.id == db.nextMessageId
                  then { m with status := MsgStatus.sent } else m) = db.messages := by
      have hcongr : ∀ m ∈ db.messages,
          (if m.id == db.nextMessageId
           then { m with status := MsgStatus.sent } else m) = m := by
        intro m hm
        have : (m.id == db.nextMessageId) = false := by
          simp only [beq_eq_false_iff_ne, ne_eq]
          exact Nat.ne_of_lt (hwf m hm)
        rw [this]
        rfl
      rw [List.map_congr_left hcongr]
      simp
    rw [hleft]
    simp
  · rw [hkey]
    have hr2 : (update_message_status
        (createMessage db uid rid (e.message.getD "")).1 uid
        db.nextMessageId MsgStatus.sent).2 =
          [Action.groupSend (GroupEvent.messageStatus db.nextMessageId MsgStatus.sent uid)] := by
      unfold update_message_status
      rw [hfind]
    rw [hr2]

/-- Witness for C10: an unknown frame type with no message field, received by
user 1 in room 1 on the example database, appends an empty message. -/
theorem receive_unknown_type_is_message_send_witness :
    (receive exDbC1 1 1
        { type := some "frobnicate", message := none, status := none,
          isTyping := none, messageId := none }).1.messages = exDbC1.messages ++
      [{ id := exDbC1.nextMessageId, content := "", sender := 1,
         room := 1, timestamp := exDbC1.clock, status := MsgStatus.sent,
         deleted := false, readBy := [], attachment := none }] ∧
    (receive exDbC1 1 1
        { type := some "frobnicate", message := none, status := none,
          isTyping := none, messageId := none }).2 =
      [Action.groupSend (GroupEvent.typingStatus 1 false),
       Action.groupSend (GroupEvent.chatMessage (some exDbC1.nextMessageId)
         "" 1 MessageKind.message (some MsgStatus.sent)),
       Action.groupSend (GroupEvent.messageStatus exDbC1.nextMessageId MsgStatus.sent 1)] :=
  receive_unknown_type_is_message_send exDbC1 1 1
    { type := some "frobnicate", message := none, status := none,
      isTyping := none, messageId := none }
    (by decide) (by decide) (by decide) (by decide)

/-- The serialized form of a message produced by MessageSerializer
(the fields relevant to soft deletion). -/
structure MessageRepr where
  id : Nat
  content : String
  attachmentUrl : Option String
  status : MsgStatus
  isDeleted : Bool
  deriving DecidableEq, Repr

/-- MessageSerializer.to_representation: build the base representation, then,
when the tombstone is set, replace content by the deletion placeholder and
null the attachment url. -/
def serializeMessage (m : Message) : MessageRepr :=
  if m.deleted then
    { id := m.id, content := "[This message was deleted]", attachmentUrl := none,
      status := m.status, isDeleted := m.deleted }
  else
    { id := m.id, content := m.content, attachmentUrl := m.attachment,
      status := m.status, isDeleted := m.deleted }

/-- MessageListView.get_queryset: messages of the room, restricted to rooms
the requesting user belongs to, with deleted_at null, ordered newest first. -/
def messageListQueryset (db : DB) (rid uid : Nat) : List Message :=
  (db.messages.filter
    (fun m => m.room == rid && memberOf db uid rid && !m.deleted)).reverse

/-- Message.delete(soft_delete=True): set the tombstone, keep the row. -/
def softDeleteMessage (db : DB) (mid : Nat) : DB :=
  { db with
      messages := db.messages.map
        (fun m => if m.id == mid then { m with deleted := true } else m) }

/-- Soft-deleted example message in room 1. -/
def exMsgC3 : Message :=
  { id := 1, content := "x", sender := 1, room := 1, timestamp := 0,
    status := MsgStatus.sent, deleted := true, readBy := [], attachment := none }

/-- Example database holding only the soft-deleted message. -/
def exDbC3 : DB :=
  { users := [1, 2],
    rooms := [{ id := 1, type := RoomType.direct, name := none }],
    memberships := [{ user := 1, room := 1, role := Role.admin },
                    { user := 2, room := 1, role := Role.admin }],
    messages := [exMsgC3],
    nextRoomId := 2, nextMessageId := 2, clock := 1 }

/-- C3 counterexample: a soft-deleted message of room 1, fetched by member 2,
does not appear in the room history listing at all — get_queryset filters on
deleted_at isnull, so the tombstoned message is removed from listings, not
merely hidden behind a placeholder. -/
theorem deleted_message_absent_from_listing :
    exMsgC3.deleted = true ∧
    exMsgC3 ∈ roomLog exDbC3 1 ∧
    memberOf exDbC3 2 1 = true ∧
    exMsgC3 ∉ messageListQueryset exDbC3 1 2 ∧
    messageListQueryset exDbC3 1 2 = [] := by
  decide

/-- C3 (amended): after soft deletion the row remains in the message table
(the id column is unchanged by softDeleteMessage) and every serialized read of
a tombstoned message shows the deletion placeholder and a null attachment
reference, but the message does not appear in the REST room history listing:
MessageListView.get_queryset excludes soft-deleted messages. -/
theorem softDeleted_reads_placeholder_but_left_out_of_listing (m : Message)
    (h : m.deleted = true) :
    (serializeMessage m).content = "[This message was deleted]" ∧
    (serializeMessage m).attachmentUrl = none ∧
    (∀ db rid uid, m ∉ messageListQueryset db rid uid) ∧
    (∀ db mid, (softDeleteMessage db mid).messages.map Message.id
        = db.messages.map Message.id) := by
  refine ⟨?_, ?_, ?_, ?_⟩
  · unfold serializeMessage
    rw [if_pos h]
  · unfold serializeMessage
    rw [if_pos h]
  · intro db rid uid hmem
    unfold messageListQueryset at hmem
    rw [List.mem_reverse] at hmem
    have hp := (List.mem_filter.mp hmem).2
    rw [h] at hp
    simp at hp
  · intro db mid
    unfold softDeleteMessage
    simp only [List.map_map]
    apply List.map_congr_left
    intro a _
    by_cases ha : a.id = mid
    · simp [ha]
    · simp [ha]

/-- Witness for the amended C3 theorem at the concrete deleted message. -/
theorem softDeleted_reads_placeholder_witness :
    (serializeMessage exMsgC3).content = "[This message was deleted]" ∧
    (serializeMessage exMsgC3).attachmentUrl = none ∧
    (∀ db rid uid, exMsgC3 ∉ messageListQueryset db rid uid) ∧
    (∀ db mid, (softDeleteMessage db mid).messages.map Message.id
        = db.messages.map Message.id) :=
  softDeleted_reads_placeholder_but_left_out_of_listing exMsgC3 (by decide)

end Chaet
